import Mathlib

/-!
Verification of the adfox-account-campaigns pipeline.

The repository consists of two Python files, `__init__.py` (full entry
point with statistics printing) and `__main__.py` (simplified entry point
with in-place integer coercion of campaign fields).  This file gives a
shallow embedding of their data model and functions:

* Python values reachable in this program (strings, ints, `None`,
  (ordered) dicts, lists) are the inductive type `PyVal`; Python dicts are
  insertion-ordered association lists.
* Pure functions (`clean_xml_response`, `xml_to_dict`,
  `parse_campaigns_data`, `parse_campaign_value`, the statistics of
  `print_campaign_stats`) are translated directly; fallible operations
  return `Except PyErr`.
* The effectful fetch (`get_campaigns`) and the two entry points are
  modelled against a `World` record supplying the environment variable,
  the HTTP outcome, the byte decoding and the XML parser outcomes; the
  side effects performed (HTTP request, file write) are collected as an
  event list.
* In-place mutation performed by `__main__.py`'s `parse_campaigns_data`
  is modelled by explicit state passing: the function returns the updated
  structure together with the extracted campaign list.
-/

namespace AdFox

/-- A Python value as reachable in this program: `None`, a string, an
`int`, an insertion-ordered `dict` with string keys, or a `list`. -/
inductive PyVal where
  | none : PyVal
  | str : String → PyVal
  | int : Int → PyVal
  | dict : List (String × PyVal) → PyVal
  | list : List PyVal → PyVal

/-- Python exception kinds that the modelled code can raise. -/
inductive PyErr where
  | valueError
  | typeError
  | keyError
  | attributeError
  | requestError
  | parseError
  | decodeError
deriving DecidableEq

/-- `isinstance(v, dict)`. -/
def PyVal.isDict : PyVal → Bool
  | .dict _ => true
  | _ => false

/-- `isinstance(v, list)`. -/
def PyVal.isList : PyVal → Bool
  | .list _ => true
  | _ => false

/-- Lookup in an insertion-ordered dict (`d[k]` when present). -/
def dictLookup (kvs : List (String × PyVal)) (k : String) : Option PyVal :=
  match kvs with
  | [] => Option.none
  | (k1, v) :: rest => if k1 = k then some v else dictLookup rest k

/-- `d[k] = v` on an insertion-ordered dict: replaces in place if the key
exists (keeping its position), otherwise appends at the end, exactly as a
Python dict behaves. -/
def dictSet (kvs : List (String × PyVal)) (k : String) (v : PyVal) :
    List (String × PyVal) :=
  match kvs with
  | [] => [(k, v)]
  | (k1, v1) :: rest =>
    if k1 = k then (k, v) :: rest else (k1, v1) :: dictSet rest k v

/-- Python truthiness of a value (`bool(v)`). -/
def pyTruthy : PyVal → Bool
  | .none => false
  | .str s => s ≠ ""
  | .int n => n ≠ 0
  | .dict kvs => ¬ kvs.isEmpty
  | .list xs => ¬ xs.isEmpty

/-- Whether `pat` occurs as a contiguous sublist of `s`. -/
def hasSubstr (pat : List Char) : List Char → Bool
  | [] => pat.isEmpty
  | c :: rest => pat.isPrefixOf (c :: rest) || hasSubstr pat rest

/-- Substring test on strings, as Python's `pat in s`.  The empty pattern
is contained in every string. -/
def strContainsSub (s pat : String) : Bool :=
  hasSubstr pat.data s.data

/-- Python's `s.startswith(pre)`. -/
def strStartsWith (s pre : String) : Bool :=
  pre.data.isPrefixOf s.data

/-- Python's `key in v` for a string `key`: key membership for dicts,
substring containment for strings, element membership for lists; a
`TypeError` for `None` and ints. -/
def pyContains (v : PyVal) (key : String) : Except PyErr Bool :=
  match v with
  | .dict kvs => .ok (kvs.any (fun p => p.1 = key))
  | .str s => .ok (strContainsSub s key)
  | .list xs =>
    .ok (xs.any (fun x => match x with | .str s => s = key | _ => false))
  | _ => .error .typeError

/-- Python's subscription `v[key]` for a string `key`: dict lookup
(`KeyError` when absent); any other value raises a `TypeError` (string
and list indices must be integers; `None`/ints are not subscriptable). -/
def pySub (v : PyVal) (key : String) : Except PyErr PyVal :=
  match v with
  | .dict kvs =>
    match dictLookup kvs key with
    | some u => .ok u
    | Option.none => .error .keyError
  | _ => .error .typeError

/-- Python's `v.get(key, dflt)`: only dicts have `.get`; any other value
raises an `AttributeError`. -/
def pyGet (v : PyVal) (key : String) (dflt : PyVal) : Except PyErr PyVal :=
  match v with
  | .dict kvs => .ok ((dictLookup kvs key).getD dflt)
  | _ => .error .attributeError

/-- Whether a value may be used as a Python dict key: dicts and lists are
unhashable. -/
def pyHashable : PyVal → Bool
  | .dict _ => false
  | .list _ => false
  | _ => true

/-- Decimal digit value of a character, if it is a digit. -/
def digitVal (c : Char) : Option Nat :=
  if c.isDigit then some (c.toNat - '0'.toNat) else Option.none

/-- Parse a nonempty all-digit character list as a natural number. -/
def parseDigits (cs : List Char) : Option Nat :=
  match cs with
  | [] => Option.none
  | _ =>
    cs.foldlM (fun a c => (digitVal c).map (fun d => a * 10 + d)) 0

/-- Python's `int(s)` on a string: strip surrounding whitespace, allow one
leading sign, then base-10 digits; `Option.none` models the `ValueError`
raised on any other input.  (Digit-group underscores and non-ASCII digits,
which real `int` also accepts, do not occur in this program's data and are
not modelled.) -/
def pyIntOfString (s : String) : Option Int :=
  let cs := ((s.data.dropWhile Char.isWhitespace).reverse.dropWhile
    Char.isWhitespace).reverse
  match cs with
  | '-' :: rest => (parseDigits rest).map (fun n => -(n : Int))
  | '+' :: rest => (parseDigits rest).map (fun n => (n : Int))
  | _ => (parseDigits cs).map (fun n => (n : Int))

/-- Python's `int(v)` on one of our values: identity on ints, string parse
(`ValueError` on failure), `TypeError` on `None`, dicts and lists. -/
def pyToInt : PyVal → Except PyErr Int
  | .int n => .ok n
  | .str s =>
    match pyIntOfString s with
    | some n => .ok n
    | Option.none => .error .valueError
  | _ => .error .typeError

/-- The right-hand side `int(u) if u else 0` of the coercion assignment in
`parse_campaign_value` (`__main__.py` lines 64–73). -/
def coerceVal (u : PyVal) : Except PyErr Int :=
  if pyTruthy u then pyToInt u else .ok 0

/-- One iteration of the loop body of `parse_campaign_value`:
`value[field_name] = int(value[field_name]) if value[field_name] else 0`.
The subscription raises `KeyError` when the field is absent. -/
def coerceField (row : List (String × PyVal)) (f : String) :
    Except PyErr (List (String × PyVal)) :=
  match dictLookup row f with
  | Option.none => .error .keyError
  | some u => do
    let n ← coerceVal u
    .ok (dictSet row f (.int n))

/-- The fixed field list of `parse_campaign_value` (`__main__.py`). -/
def campaignFields : List String :=
  ["maxImpressions", "maxClicks", "maxImpressionsPerDay", "maxClicksPerDay",
   "maxImpressionsPerHour", "maxClicksPerHour", "impressionsHour",
   "clicksHour", "impressionsToday", "clicksToday", "impressionsAll",
   "clicksAll", "priority", "status",
   "level", "cpm", "cpc", "kind_id", "sectorID",
   "rotationMethodID", "trafficPercents", "logicType"]

/-- `parse_campaign_value` (`__main__.py` lines 64–73), with the in-place
mutation of the row dict rendered as state passing over the field loop. -/
def parse_campaign_value (row : List (String × PyVal)) :
    Except PyErr (List (String × PyVal)) :=
  campaignFields.foldlM coerceField row

/-! ### The XML tree and `xml_to_dict` -/

/-- A parsed XML element as `xml.etree.ElementTree` presents it: a tag
name, the text before the first child (`element.text`, `Option.none` when
the element is empty), and the list of child elements in document
order. -/
inductive Xml where
  | elem (tag : String) (text : Option String) (children : List Xml)

/-- The tag name of an element. -/
def Xml.tag : Xml → String
  | .elem t _ _ => t

/-- The child elements of an element. -/
def Xml.children : Xml → List Xml
  | .elem _ _ cs => cs

/-- `element.text` as a Python value: `None` or the string. -/
def pyOfText : Option String → PyVal
  | Option.none => .none
  | some s => .str s

/-- One insertion step of the accumulating mapping in `xml_to_dict`: if
the child's tag is already a key, promote the existing value to a list
(unless it already is one) and append; otherwise insert directly. -/
def insertChild (acc : List (String × PyVal)) (t : String) (v : PyVal) :
    List (String × PyVal) :=
  match dictLookup acc t with
  | Option.none => dictSet acc t v
  | some (.list xs) => dictSet acc t (.list (xs ++ [v]))
  | some old => dictSet acc t (.list [old, v])

/-- Fold the converted `(tag, value)` pairs of the children into the
accumulating mapping, starting from the empty dict. -/
def buildDict (ps : List (String × PyVal)) : List (String × PyVal) :=
  ps.foldl (fun acc p => insertChild acc p.1 p.2) []

mutual

/-- `xml_to_dict` (`__init__.py` lines 33–53, identical in
`__main__.py`): an element with children becomes a dict built by
`insertChild` over the children in document order; a childless element
returns its own text (dropping its tag). -/
def xml_to_dict : Xml → PyVal
  | .elem _ text [] => pyOfText text
  | .elem _ _ (c :: cs) => .dict (buildDict (convPairs (c :: cs)))

/-- The `(child.tag, xml_to_dict(child))` pairs of a child list. -/
def convPairs : List Xml → List (String × PyVal)
  | [] => []
  | c :: rest => (c.tag, xml_to_dict c) :: convPairs rest

end

/-! ### `clean_xml_response` -/

/-- The closing root tag literal searched for by `clean_xml_response`. -/
def respCloseTag : List Char := "</response>".data

/-- Whether `respCloseTag` occurs in `text` starting at position `i`. -/
def occursAt (text : List Char) (i : Nat) : Bool :=
  List.take respCloseTag.length (List.drop i text) = respCloseTag

/-- Scan positions `n, n-1, …, 0` for an occurrence of `respCloseTag`,
returning the largest position at which it occurs. -/
def rfindFrom (text : List Char) : Nat → Option Nat
  | 0 => if occursAt text 0 then some 0 else Option.none
  | n + 1 => if occursAt text (n + 1) then some (n + 1) else rfindFrom text n

/-- Python's `text.rfind('</response>')`, with `Option.none` for `-1`. -/
def rfindTag (text : List Char) : Option Nat :=
  rfindFrom text text.length

/-- `clean_xml_response` (`__init__.py` lines 23–31, identical in
`__main__.py`): truncate at the end of the last occurrence of
`</response>`; if the tag is never found, return the text unchanged. -/
def clean_xml_response (text : List Char) : List Char :=
  match rfindTag text with
  | Option.none => text
  | some i => List.take (i + respCloseTag.length) text

/-- `clean_xml_response` lifted to `String`. -/
def cleanStr (s : String) : String :=
  String.mk (clean_xml_response s.data)

/-! ### Campaign extraction -/

/-- `parse_campaigns_data` of `__init__.py` (lines 55–67): walk
`result.data` guarded by the condition
`'result' in xml_data and 'data' in xml_data['result']`, then collect the
values of the entries whose key starts with `row` and whose value is a
dict, in insertion order.  Dynamic typing is preserved: containment,
subscription and `.items()` iteration raise the same exception kinds as
Python does on non-dict values. -/
def parse_campaigns_data (xml_data : PyVal) : Except PyErr (List PyVal) := do
  let c1 ← pyContains xml_data "result"
  if c1 then do
    let r ← pySub xml_data "result"
    let c2 ← pyContains r "data"
    if c2 then do
      let data ← pySub r "data"
      match data with
      | .dict entries =>
        .ok ((entries.filter
          (fun p => strStartsWith p.1 "row" && p.2.isDict)).map Prod.snd)
      | _ => .error .attributeError
    else .ok []
  else .ok []

/-- The row loop of `parse_campaigns_data` in `__main__.py` (lines
55–61): each row dict is coerced by `parse_campaign_value` (in Python this
mutates the row in place) and collected.  Returns the updated entry list
of `result.data` together with the campaign list. -/
def coerceRows : List (String × PyVal) →
    Except PyErr (List (String × PyVal) × List PyVal)
  | [] => .ok ([], [])
  | (k, v) :: rest =>
    match v, strStartsWith k "row" with
    | .dict row, true => do
      let row1 ← parse_campaign_value row
      let p ← coerceRows rest
      .ok ((k, .dict row1) :: p.1, .dict row1 :: p.2)
    | _, _ => do
      let p ← coerceRows rest
      .ok ((k, v) :: p.1, p.2)

/-- Replace the value stored at `xml_data["result"]["data"]`, modelling
the in-place mutation of the shared row dicts.  The fallback branch is
unreachable on every path on which it is used, because subscription only
succeeds on dicts. -/
def setDataPath (xml_data r data1 : PyVal) : PyVal :=
  match xml_data, r with
  | .dict xkvs, .dict rkvs =>
    .dict (dictSet xkvs "result" (.dict (dictSet rkvs "data" data1)))
  | _, _ => xml_data

/-- `parse_campaigns_data` of `__main__.py` (lines 49–62): same walk as
the `__init__.py` version, but each row is coerced in place by
`parse_campaign_value` before being appended.  The mutation is modelled by
returning the updated structure alongside the campaign list. -/
def parse_campaigns_data_mut (xml_data : PyVal) :
    Except PyErr (PyVal × List PyVal) := do
  let c1 ← pyContains xml_data "result"
  if c1 then do
    let r ← pySub xml_data "result"
    let c2 ← pyContains r "data"
    if c2 then do
      let data ← pySub r "data"
      match data with
      | .dict entries => do
        let p ← coerceRows entries
        .ok (setDataPath xml_data r (.dict p.1), p.2)
      | _ => .error .attributeError
    else .ok (xml_data, [])
  else .ok (xml_data, [])

/-! ### The reporter (`print_campaign_stats`) -/

/-- The total of one numeric field over the campaign list, as computed by
`sum(int(c.get(f, 0) or 0) for c in campaigns)` (`__init__.py` lines
158–159): a missing key defaults to `0`, a falsy value is replaced by `0`,
and the result is fed to `int` (which raises on non-numeric strings). -/
def sumField (campaigns : List PyVal) (f : String) : Except PyErr Int :=
  campaigns.foldlM (fun acc c => do
    let v ← pyGet c f (.int 0)
    let n ← coerceVal v
    .ok (acc + n)) 0

/-- The status-count loop of `print_campaign_stats` (`__init__.py` lines
142–145): each campaign's `status` (default `'unknown'`) is used as a dict
key, which raises a `TypeError` when the value is unhashable.  The counts
themselves only feed console output and are not needed here. -/
def statusPass (campaigns : List PyVal) : Except PyErr Unit :=
  campaigns.foldlM (fun _ c => do
    let s ← pyGet c "status" (.str "unknown")
    if pyHashable s then .ok () else .error .typeError) ()

/-- The observable numeric outcome of `print_campaign_stats`
(`__init__.py` lines 132–167): `Option.none` when no click-through rate is
displayed (empty input, or `total_impressions > 0` fails), otherwise the
displayed rate `(total_clicks / total_impressions) * 100` as an exact
rational.  The float arithmetic and the 3-digit formatting of the Python
code are abstracted to exact rational arithmetic. -/
def print_campaign_stats (campaigns : List PyVal) :
    Except PyErr (Option ℚ) :=
  if campaigns.isEmpty then .ok Option.none
  else do
    statusPass campaigns
    let imps ← sumField campaigns "impressionsAll"
    let clicks ← sumField campaigns "clicksAll"
    .ok (if 0 < imps then some (((clicks : ℚ) / (imps : ℚ)) * 100)
         else Option.none)

/-! ### The effectful pipeline -/

/-- An observable side effect of a run. -/
inductive Event where
  | httpGet
  | fileWrite (path : String)
deriving DecidableEq

/-- The HTTP response as far as the program inspects it: the
`Content-Type` header (if present) and the outcome of
`response.content.decode(encoding)` for each encoding name, with `.error`
standing for a `UnicodeDecodeError`. -/
structure HttpResp where
  contentType : Option String
  decodeAt : String → Except Unit String

/-- Everything external the run depends on: the `AUTH_TOKEN` environment
variable, the outcome of `requests.get` (with `.error` covering network
failures and non-2xx statuses surfaced by `raise_for_status`), and the
outcome of `ET.fromstring` on each input text (`.error` standing for an
`ET.ParseError`). -/
structure World where
  authToken : Option String
  httpResult : Except Unit HttpResp
  parseXml : String → Except Unit Xml

/-- The characters of `s` after the first occurrence of `pat` (empty when
`pat` does not occur). -/
def afterSub (pat : List Char) : List Char → List Char
  | [] => []
  | c :: rest =>
    if pat.isPrefixOf (c :: rest) then (c :: rest).drop pat.length
    else afterSub pat rest

/-- The characters of `s` before the first occurrence of `pat` (all of
`s` when `pat` does not occur). -/
def upToSub (pat : List Char) : List Char → List Char
  | [] => []
  | c :: rest =>
    if pat.isPrefixOf (c :: rest) then [] else c :: upToSub pat rest

/-- Python's `s.strip()`: drop surrounding whitespace. -/
def trimChars (cs : List Char) : List Char :=
  ((cs.dropWhile Char.isWhitespace).reverse.dropWhile
    Char.isWhitespace).reverse

/-- The encoding chosen by `get_campaigns`: when the `Content-Type`
header (defaulted to the empty string when absent) contains `charset=`,
the value `content_type.split('charset=')[1].split(';')[0].strip()`,
computed here as: the text after the first `charset=`, cut at the next
`charset=` and at the first `;`, stripped; otherwise `windows-1251`. -/
def extractCharset (ct : String) : String :=
  if strContainsSub ct "charset=" then
    String.mk (trimChars (upToSub ";".data
      (upToSub "charset=".data (afterSub "charset=".data ct.data))))
  else "windows-1251"

/-- The `try` body of `get_campaigns` after the token check: request,
decode, truncate, XML-parse, convert.  Returns the events performed and
either the converted value or the exception raised. -/
def getCampaignsBody (w : World) : List Event × Except PyErr PyVal :=
  match w.httpResult with
  | .error _ => ([.httpGet], .error .requestError)
  | .ok resp =>
    let enc := extractCharset (resp.contentType.getD "")
    match resp.decodeAt enc with
    | .error _ => ([.httpGet], .error .decodeError)
    | .ok text =>
      match w.parseXml (cleanStr text) with
      | .error _ => ([.httpGet], .error .parseError)
      | .ok root => ([.httpGet], .ok (xml_to_dict root))

/-- `get_campaigns` of `__init__.py` (lines 69–130): a missing or empty
`AUTH_TOKEN` raises a `ValueError` before the request; request, XML-parse
and decode exceptions are caught and turn into a `None` result. -/
def get_campaigns_init (w : World) :
    List Event × Except PyErr (Option PyVal) :=
  match w.authToken with
  | Option.none => ([], .error .valueError)
  | some tok =>
    if tok = "" then ([], .error .valueError)
    else
      match getCampaignsBody w with
      | (evs, .ok v) => (evs, .ok (some v))
      | (evs, .error .requestError) => (evs, .ok Option.none)
      | (evs, .error .parseError) => (evs, .ok Option.none)
      | (evs, .error .decodeError) => (evs, .ok Option.none)
      | (evs, .error e) => (evs, .error e)

/-- `get_campaigns` of `__main__.py` (lines 75–119): as the `__init__.py`
version, but only request and XML-parse exceptions are caught — a
`UnicodeDecodeError` propagates. -/
def get_campaigns_main (w : World) :
    List Event × Except PyErr (Option PyVal) :=
  match w.authToken with
  | Option.none => ([], .error .valueError)
  | some tok =>
    if tok = "" then ([], .error .valueError)
    else
      match getCampaignsBody w with
      | (evs, .ok v) => (evs, .ok (some v))
      | (evs, .error .requestError) => (evs, .ok Option.none)
      | (evs, .error .parseError) => (evs, .ok Option.none)
      | (evs, .error e) => (evs, .error e)

/-- `main` of `__init__.py` (lines 169–223): the whole body runs inside
`try … except Exception`, so the run never ends with an uncaught
exception; the output file is written only after data was fetched, the
campaign list is nonempty and `print_campaign_stats` returned.  The
result is the list of performed events and the uncaught exception (always
`Option.none` here). -/
def main_init (w : World) : List Event × Option PyErr :=
  match get_campaigns_init w with
  | (evs, .error _) => (evs, Option.none)
  | (evs, .ok Option.none) => (evs, Option.none)
  | (evs, .ok (some data)) =>
    if pyTruthy data then
      match parse_campaigns_data data with
      | .error _ => (evs, Option.none)
      | .ok campaigns =>
        if campaigns.isEmpty then (evs, Option.none)
        else
          match print_campaign_stats campaigns with
          | .error _ => (evs, Option.none)
          | .ok _ => (evs ++ [.fileWrite "adfox_campaigns.json"], Option.none)
    else (evs, Option.none)

/-- The `__main__` block of `__main__.py` (lines 121–153): no surrounding
`try`, so exceptions from `get_campaigns`, from the coercing
`parse_campaigns_data` and from the status loop crash the run; otherwise
`campaigns.json` is written (even for an empty campaign list). -/
def main_main (w : World) : List Event × Option PyErr :=
  match get_campaigns_main w with
  | (evs, .error e) => (evs, some e)
  | (evs, .ok Option.none) => (evs, Option.none)
  | (evs, .ok (some data)) =>
    if pyTruthy data then
      match parse_campaigns_data_mut data with
      | .error e => (evs, some e)
      | .ok (_, campaigns) =>
        match statusPass campaigns with
        | .error e => (evs, some e)
        | .ok _ => (evs ++ [.fileWrite "campaigns.json"], Option.none)
    else (evs, Option.none)

/-- No `fileWrite` event occurs in the list. -/
def noFileWrite (evs : List Event) : Prop :=
  ∀ p, Event.fileWrite p ∉ evs

/-- Lookup on a PyVal that is expected to be a dict (used to state
theorems; non-dicts have no entries). -/
def pyDictLookup (v : PyVal) (k : String) : Option PyVal :=
  match v with
  | .dict kvs => dictLookup kvs k
  | _ => Option.none

/-- The Python-dict value that a key group collapses to under
`insertChild`: no occurrence, a single value, or a list of the values. -/
def reprOf (vs : List PyVal) : Option PyVal :=
  match vs with
  | [] => Option.none
  | [v] => some v
  | vs => some (.list vs)

/-- The values of the entries of `ps` with key `t`, in order. -/
def groupVals (ps : List (String × PyVal)) (t : String) : List PyVal :=
  (ps.filter (fun p => p.1 = t)).map Prod.snd

/-! ### Concrete vectors used to instantiate the theorems -/

/-- A campaign row carrying the string `"5"` in every coerced field. -/
def sampleRow : List (String × PyVal) :=
  campaignFields.map (fun f => (f, PyVal.str "5"))

/-- `sampleRow` after coercion: every coerced field holds the int 5. -/
def sampleRowCoerced : List (String × PyVal) :=
  campaignFields.map (fun f => (f, PyVal.int 5))

/-- A campaign row with a non-numeric value in a coerced field. -/
def badRow : List (String × PyVal) :=
  [("maxImpressions", PyVal.str "abc")]

/-- The `result.data` entries of `badRoot`. -/
def badEntries : List (String × PyVal) :=
  [("row0", PyVal.dict badRow)]

/-- A root mapping whose only row is `badRow`. -/
def badRoot : List (String × PyVal) :=
  [("result", .dict [("data", .dict badEntries)])]

/-- `result.data` entries with two rows and stray non-row siblings. -/
def sampleEntries : List (String × PyVal) :=
  [("row0", .dict [("ID", .str "1")]),
   ("junk", .str "z"),
   ("row1", .dict [("ID", .str "2")]),
   ("rowX", .none)]

/-- A root mapping with two rows and a stray non-row sibling. -/
def sampleRoot : List (String × PyVal) :=
  [("result", .dict [("data", .dict sampleEntries)])]

/-- A root mapping whose `result.data` row holds `sampleRow`. -/
def sampleRootFull : PyVal :=
  .dict [("result", .dict [("data", .dict [("row0", .dict sampleRow)])])]

/-- `sampleRootFull` after the coercing extraction mutated its row. -/
def mutatedRoot : PyVal :=
  .dict [("result", .dict [("data", .dict
    [("row0", .dict sampleRowCoerced)])])]

/-- The campaign list extracted from `sampleRootFull`. -/
def mutatedCamps : List PyVal :=
  [PyVal.dict sampleRowCoerced]

/-- Children with a repeated tag `a` and a singleton tag `b`. -/
def sampleChildren : List Xml :=
  [.elem "a" (some "1") [], .elem "a" (some "2") [], .elem "b" (some "3") []]

/-- Children with one empty leaf `a` next to a `b` leaf. -/
def childrenWithEmptyLeaf : List Xml :=
  [.elem "b" (some "x") [], .elem "a" Option.none []]

/-- Children with no `a` at all. -/
def childrenWithoutLeaf : List Xml :=
  [.elem "b" (some "x") []]

/-- A campaign list with 1000 impressions and 10 clicks. -/
def sampleCampaigns : List PyVal :=
  [.dict [("impressionsAll", .str "1000"), ("clicksAll", .str "10")]]

/-- A campaign list whose impression total is negative. -/
def negCampaigns : List PyVal :=
  [.dict [("impressionsAll", .str "-1"), ("clicksAll", .str "0")]]

/-- A world with no credential in the environment. -/
def worldNoToken : World :=
  ⟨Option.none, .error (), fun _ => .error ()⟩

/-- A world whose HTTP request fails. -/
def worldReqErr : World :=
  ⟨some "tok", .error (), fun _ => .error ()⟩

/-- An XML response whose only row has a non-numeric `maxImpressions`. -/
def xmlBad : Xml :=
  .elem "response" Option.none [.elem "result" Option.none
    [.elem "data" Option.none [.elem "row0" Option.none
      [.elem "maxImpressions" (some "abc") []]]]]

/-- A world that fetches and parses `xmlBad` successfully. -/
def worldBad : World :=
  ⟨some "tok", .ok ⟨Option.none, fun _ => .ok "<response></response>"⟩,
   fun _ => .ok xmlBad⟩

/-! ## Helper lemmas -/

theorem exceptBind_error {α β : Type} (e : PyErr) (g : α → Except PyErr β) :
    (Except.error e >>= g) = Except.error e := rfl

theorem exceptBind_ok {α β : Type} (a : α) (g : α → Except PyErr β) :
    (Except.ok a >>= g) = g a := rfl

theorem dictLookup_dictSet_self (kvs : List (String × PyVal)) (k : String)
    (v : PyVal) : dictLookup (dictSet kvs k v) k = some v := by
  induction kvs with
  | nil => simp [dictSet, dictLookup]
  | cons p rest ih =>
    obtain ⟨k1, v1⟩ := p
    by_cases h : k1 = k
    · simp [dictSet, h, dictLookup]
    · simp [dictSet, h, dictLookup, ih]

theorem dictLookup_dictSet_ne (kvs : List (String × PyVal)) (k k' : String)
    (v : PyVal) (h : k' ≠ k) :
    dictLookup (dictSet kvs k v) k' = dictLookup kvs k' := by
  induction kvs with
  | nil => simp [dictSet, dictLookup, Ne.symm h]
  | cons p rest ih =>
    obtain ⟨k1, v1⟩ := p
    by_cases h1 : k1 = k
    · subst h1
      simp [dictSet, dictLookup, Ne.symm h]
    · simp only [dictSet, if_neg h1, dictLookup]
      by_cases h2 : k1 = k'
      · simp [h2]
      · simp [h2, ih]

theorem dictLookup_eq_none_of_not_mem (kvs : List (String × PyVal))
    (k : String) (h : k ∉ kvs.map Prod.fst) :
    dictLookup kvs k = Option.none := by
  induction kvs with
  | nil => rfl
  | cons p rest ih =>
    obtain ⟨k1, v1⟩ := p
    simp only [List.map_cons, List.mem_cons] at h
    push_neg at h
    simp [dictLookup, Ne.symm h.1, ih h.2]

theorem dictSet_eq_append (kvs : List (String × PyVal)) (k : String)
    (v : PyVal) (h : dictLookup kvs k = Option.none) :
    dictSet kvs k v = kvs ++ [(k, v)] := by
  induction kvs with
  | nil => rfl
  | cons p rest ih =>
    obtain ⟨k1, v1⟩ := p
    by_cases h1 : k1 = k
    · simp [dictLookup, h1] at h
    · simp only [dictLookup, if_neg h1] at h
      simp [dictSet, h1, ih h]

theorem coerceField_none {row : List (String × PyVal)} {f : String}
    (hu : dictLookup row f = Option.none) :
    coerceField row f = .error .keyError := by
  simp [coerceField, hu]

theorem coerceField_some_err {row : List (String × PyVal)} {f : String}
    {u : PyVal} {e : PyErr} (hu : dictLookup row f = some u)
    (hc : coerceVal u = .error e) : coerceField row f = .error e := by
  simp [coerceField, hu, hc, exceptBind_error]

theorem coerceField_some_ok {row : List (String × PyVal)} {f : String}
    {u : PyVal} {n : Int} (hu : dictLookup row f = some u)
    (hc : coerceVal u = .ok n) :
    coerceField row f = .ok (dictSet row f (.int n)) := by
  simp [coerceField, hu, hc, exceptBind_ok]

theorem coerceField_ok_inv {row v1 : List (String × PyVal)} {f : String}
    (h : coerceField row f = .ok v1) :
    ∃ u n, dictLookup row f = some u ∧ coerceVal u = .ok n ∧
      v1 = dictSet row f (.int n) := by
  cases hu : dictLookup row f with
  | none => rw [coerceField_none hu] at h; exact absurd h (by simp)
  | some u =>
    cases hc : coerceVal u with
    | error e =>
      rw [coerceField_some_err hu hc] at h
      exact absurd h (by simp)
    | ok n =>
      rw [coerceField_some_ok hu hc] at h
      exact ⟨u, n, rfl, hc, (Except.ok.inj h).symm⟩

theorem coerce_fold_err (fs : List String) (v : List (String × PyVal))
    (f : String) (hf : f ∈ fs)
    (hbad : ∀ u n, dictLookup v f = some u → coerceVal u ≠ Except.ok n) :
    ∃ e, fs.foldlM coerceField v = .error e := by
  induction fs generalizing v with
  | nil => exact absurd hf (List.not_mem_nil f)
  | cons g rest ih =>
    rw [List.foldlM_cons]
    by_cases hgf : g = f
    · subst hgf
      cases hu : dictLookup v g with
      | none =>
        exact ⟨.keyError, by rw [coerceField_none hu, exceptBind_error]⟩
      | some u =>
        cases hc : coerceVal u with
        | ok n => exact absurd hc (hbad u n hu)
        | error e =>
          exact ⟨e, by rw [coerceField_some_err hu hc, exceptBind_error]⟩
    · cases hstep : coerceField v g with
      | error e => exact ⟨e, by simp [hstep, exceptBind_error]⟩
      | ok v1 =>
        have hf1 : f ∈ rest := by
          rcases List.mem_cons.mp hf with h | h
          · exact absurd h.symm hgf
          · exact h
        obtain ⟨u, n, _, _, hv1⟩ := coerceField_ok_inv hstep
        have hpres : dictLookup v1 f = dictLookup v f := by
          rw [hv1]
          exact dictLookup_dictSet_ne v g f (.int n) (fun h => hgf h.symm)
        obtain ⟨e, he⟩ := ih v1 hf1 (fun u1 n1 hu1 =>
          hbad u1 n1 (hpres ▸ hu1))
        exact ⟨e, by rw [exceptBind_ok]; exact he⟩

theorem coerce_fold_pres (fs : List String) (v v1 : List (String × PyVal))
    (k : String) (h : fs.foldlM coerceField v = .ok v1) (hk : k ∉ fs) :
    dictLookup v1 k = dictLookup v k := by
  induction fs generalizing v with
  | nil =>
    simp only [List.foldlM_nil] at h
    cases h
    rfl
  | cons g rest ih =>
    rw [List.foldlM_cons] at h
    cases hstep : coerceField v g with
    | error e => rw [hstep, exceptBind_error] at h; exact absurd h (by simp)
    | ok v2 =>
      rw [hstep, exceptBind_ok] at h
      obtain ⟨u, n, _, _, hv2⟩ := coerceField_ok_inv hstep
      have hk1 : k ∉ rest := fun hh => hk (List.mem_cons_of_mem g hh)
      have hgk : k ≠ g := fun hh => hk (hh ▸ List.mem_cons_self g rest)
      rw [ih v2 h hk1, hv2, dictLookup_dictSet_ne v g k (.int n) hgk]

theorem coerce_fold_ints (fs : List String) (hnd : fs.Nodup)
    (v v1 : List (String × PyVal)) (h : fs.foldlM coerceField v = .ok v1) :
    ∀ f ∈ fs, ∃ n : Int, dictLookup v1 f = some (.int n) := by
  induction fs generalizing v with
  | nil => intro f hf; exact absurd hf (List.not_mem_nil f)
  | cons g rest ih =>
    rw [List.foldlM_cons] at h
    cases hstep : coerceField v g with
    | error e => rw [hstep, exceptBind_error] at h; exact absurd h (by simp)
    | ok v2 =>
      rw [hstep, exceptBind_ok] at h
      obtain ⟨u, n, _, _, hv2⟩ := coerceField_ok_inv hstep
      intro f hf
      rcases List.mem_cons.mp hf with hfg | hfr
      · subst hfg
        have hnotin : f ∉ rest := (List.nodup_cons.mp hnd).1
        rw [coerce_fold_pres rest v2 v1 f h hnotin, hv2,
          dictLookup_dictSet_self]
        exact ⟨n, rfl⟩
      · exact ih (List.nodup_cons.mp hnd).2 v2 h f hfr

theorem coerce_fold_ok (fs : List String) (hnd : fs.Nodup)
    (v : List (String × PyVal))
    (h : ∀ f ∈ fs, ∃ u n, dictLookup v f = some u ∧ coerceVal u = .ok n) :
    ∃ v1, fs.foldlM coerceField v = .ok v1 ∧
      (∀ f ∈ fs, ∃ u n, dictLookup v f = some u ∧ coerceVal u = .ok n ∧
        dictLookup v1 f = some (.int n)) ∧
      (∀ k, k ∉ fs → dictLookup v1 k = dictLookup v k) := by
  induction fs generalizing v with
  | nil => exact ⟨v, rfl, by simp, fun k _ => rfl⟩
  | cons g rest ih =>
    obtain ⟨u, n, hu, hc⟩ := h g (List.mem_cons_self g rest)
    have hstep : coerceField v g = .ok (dictSet v g (.int n)) :=
      coerceField_some_ok hu hc
    set v2 := dictSet v g (.int n) with hv2
    have hrest : ∀ f ∈ rest, ∃ u1 n1, dictLookup v2 f = some u1 ∧
        coerceVal u1 = .ok n1 := by
      intro f hf
      by_cases hfg : f = g
      · subst hfg
        exact ⟨.int n, if n = 0 then 0 else n, by
          rw [hv2, dictLookup_dictSet_self], by
          by_cases hn : n = 0 <;>
            simp [coerceVal, pyTruthy, pyToInt, hn]⟩
      · obtain ⟨u1, n1, hu1, hc1⟩ := h f (List.mem_cons_of_mem g hf)
        exact ⟨u1, n1, by
          rw [hv2, dictLookup_dictSet_ne v g f (.int n) hfg]
          exact hu1, hc1⟩
    obtain ⟨v1, hfold, hvals, hpres⟩ := ih (List.nodup_cons.mp hnd).2 v2 hrest
    refine ⟨v1, ?_, ?_, ?_⟩
    · rw [List.foldlM_cons, hstep, exceptBind_ok]
      exact hfold
    · intro f hf
      rcases List.mem_cons.mp hf with hfg | hfr
      · subst hfg
        have hnotin : f ∉ rest := (List.nodup_cons.mp hnd).1
        refine ⟨u, n, hu, hc, ?_⟩
        rw [hpres f hnotin, hv2, dictLookup_dictSet_self]
      · obtain ⟨u1, n1, hu1, hc1, hl1⟩ := hvals f hfr
        have hfg : f ≠ g := fun hh =>
          (List.nodup_cons.mp hnd).1 (hh ▸ hfr)
        rw [hv2, dictLookup_dictSet_ne v g f (.int n) hfg] at hu1
        exact ⟨u1, n1, hu1, hc1, hl1⟩
    · intro k hk
      have hk1 : k ∉ rest := fun hh => hk (List.mem_cons_of_mem g hh)
      have hkg : k ≠ g := fun hh => hk (hh ▸ List.mem_cons_self g rest)
      rw [hpres k hk1, hv2, dictLookup_dictSet_ne v g k (.int n) hkg]

theorem campaignFields_nodup : campaignFields.Nodup := by decide

theorem groupVals_append_single (ps : List (String × PyVal)) (t : String)
    (q : String × PyVal) :
    groupVals (ps ++ [q]) t =
      groupVals ps t ++ (if q.1 = t then [q.2] else []) := by
  simp only [groupVals, List.filter_append, List.map_append]
  by_cases h : q.1 = t
  · simp [List.filter, h]
  · simp [List.filter, h]

theorem nonlist_of_mem_groupVals (ps : List (String × PyVal)) (t : String)
    (v0 : PyVal) (hnl : ∀ p ∈ ps, p.2.isList = false)
    (hm : v0 ∈ groupVals ps t) : v0.isList = false := by
  obtain ⟨p, hp, hpv⟩ := List.mem_map.mp hm
  exact hpv ▸ hnl p (List.mem_of_mem_filter hp)

theorem insertChild_lookup_ne (acc : List (String × PyVal)) (t s : String)
    (v : PyVal) (h : s ≠ t) :
    dictLookup (insertChild acc t v) s = dictLookup acc s := by
  cases hl : dictLookup acc t with
  | none => simp [insertChild, hl, dictLookup_dictSet_ne acc t s _ h]
  | some u =>
    cases u <;> simp [insertChild, hl, dictLookup_dictSet_ne acc t s _ h]

theorem insertChild_represents (acc ps : List (String × PyVal)) (t : String)
    (v : PyVal) (hrep : ∀ s, dictLookup acc s = reprOf (groupVals ps s))
    (hnl : ∀ p ∈ ps, p.2.isList = false) :
    ∀ s, dictLookup (insertChild acc t v) s =
      reprOf (groupVals (ps ++ [(t, v)]) s) := by
  intro s
  rw [groupVals_append_single]
  by_cases hst : s = t
  · subst hst
    simp only [if_pos rfl]
    cases hg : groupVals ps s with
    | nil =>
      have hl : dictLookup acc s = Option.none := by
        rw [hrep s, hg]; rfl
      simp [insertChild, hl, dictLookup_dictSet_self, reprOf]
    | cons v0 tail =>
      cases tail with
      | nil =>
        have hl : dictLookup acc s = some v0 := by
          rw [hrep s, hg]; rfl
        have hv0 : v0.isList = false :=
          nonlist_of_mem_groupVals ps s v0 hnl (by rw [hg]; simp)
        cases v0 with
        | list xs => simp [PyVal.isList] at hv0
        | none => simp [insertChild, hl, dictLookup_dictSet_self, reprOf]
        | str a => simp [insertChild, hl, dictLookup_dictSet_self, reprOf]
        | int a => simp [insertChild, hl, dictLookup_dictSet_self, reprOf]
        | dict a => simp [insertChild, hl, dictLookup_dictSet_self, reprOf]
      | cons v1 tail1 =>
        have hl : dictLookup acc s = some (.list (v0 :: v1 :: tail1)) := by
          rw [hrep s, hg]; rfl
        simp [insertChild, hl, dictLookup_dictSet_self, reprOf]
  · rw [insertChild_lookup_ne acc t s v hst, hrep s,
      if_neg (fun hh => hst hh.symm)]
    simp

theorem buildDict_fold_represents (ps : List (String × PyVal)) :
    ∀ (done acc : List (String × PyVal)),
    (∀ s, dictLookup acc s = reprOf (groupVals done s)) →
    (∀ p ∈ done ++ ps, p.2.isList = false) →
    ∀ s, dictLookup (ps.foldl (fun a p => insertChild a p.1 p.2) acc) s =
      reprOf (groupVals (done ++ ps) s) := by
  induction ps with
  | nil =>
    intro done acc hrep _ s
    simpa using hrep s
  | cons q rest ih =>
    intro done acc hrep hnl s
    obtain ⟨t, v⟩ := q
    have hstep := insertChild_represents acc done t v hrep
      (fun p hp => hnl p (List.mem_append_left _ hp))
    have hnl1 : ∀ p ∈ (done ++ [(t, v)]) ++ rest, p.2.isList = false := by
      intro p hp
      apply hnl p
      simpa [List.append_assoc] using hp
    have := ih (done ++ [(t, v)]) (insertChild acc t v) hstep hnl1 s
    simpa [List.append_assoc] using this

theorem dictLookup_buildDict (ps : List (String × PyVal))
    (hnl : ∀ p ∈ ps, p.2.isList = false) (t : String) :
    dictLookup (buildDict ps) t = reprOf (groupVals ps t) := by
  have := buildDict_fold_represents ps [] []
    (fun s => rfl) (by simpa using hnl) t
  simpa [buildDict] using this

theorem buildDict_fold_nodup (ps : List (String × PyVal)) :
    ∀ acc : List (String × PyVal),
    (((acc ++ ps).map Prod.fst).Nodup) →
    ps.foldl (fun a p => insertChild a p.1 p.2) acc = acc ++ ps := by
  induction ps with
  | nil => intro acc _; simp
  | cons q rest ih =>
    intro acc h
    obtain ⟨t, v⟩ := q
    rw [List.map_append] at h
    obtain ⟨h1, h2, hdisj⟩ := List.nodup_append.mp h
    have htacc : t ∉ acc.map Prod.fst := by
      intro hmem
      exact hdisj hmem (by simp)
    have hlook : dictLookup acc t = Option.none :=
      dictLookup_eq_none_of_not_mem acc t htacc
    have hins : insertChild acc t v = acc ++ [(t, v)] := by
      simp [insertChild, hlook, dictSet_eq_append acc t v hlook]
    rw [List.foldl_cons, hins, ih (acc ++ [(t, v)])
      (by simpa [List.append_assoc] using h)]
    simp

theorem buildDict_eq_self (ps : List (String × PyVal))
    (h : (ps.map Prod.fst).Nodup) : buildDict ps = ps := by
  have := buildDict_fold_nodup ps [] (by simpa using h)
  simpa [buildDict] using this

theorem convPairs_eq_map (cs : List Xml) :
    convPairs cs = cs.map (fun c => (c.tag, xml_to_dict c)) := by
  induction cs with
  | nil => simp [convPairs]
  | cons c rest ih => simp [convPairs, ih]

theorem xml_to_dict_nonlist (x : Xml) : (xml_to_dict x).isList = false := by
  obtain ⟨t, txt, cs⟩ := x
  cases cs with
  | nil => cases txt <;> simp [xml_to_dict, pyOfText, PyVal.isList]
  | cons c rest => simp [xml_to_dict, PyVal.isList]

theorem convPairs_nonlist (cs : List Xml) :
    ∀ p ∈ convPairs cs, p.2.isList = false := by
  intro p hp
  rw [convPairs_eq_map] at hp
  obtain ⟨c, _, hc⟩ := List.mem_map.mp hp
  rw [← hc]
  exact xml_to_dict_nonlist c

theorem groupVals_convPairs (cs : List Xml) (a : String) :
    groupVals (convPairs cs) a =
      (cs.filter (fun c => c.tag = a)).map xml_to_dict := by
  induction cs with
  | nil => simp [convPairs, groupVals]
  | cons c rest ih =>
    simp only [convPairs, groupVals, List.filter_cons] at *
    by_cases h : c.tag = a
    · simp [h, ih]
    · simp [h, ih]

theorem xml_to_dict_cons (t : String) (txt : Option String) (c : Xml)
    (cs : List Xml) :
    xml_to_dict (.elem t txt (c :: cs)) =
      .dict (buildDict (convPairs (c :: cs))) := by
  simp [xml_to_dict]

theorem occursAt_iff {text : List Char} {i : Nat} :
    occursAt text i = true ↔
      List.take respCloseTag.length (List.drop i text) = respCloseTag := by
  unfold occursAt
  exact decide_eq_true_iff

theorem respCloseTag_length : respCloseTag.length = 11 := rfl

theorem occursAt_le {text : List Char} {i : Nat}
    (h : occursAt text i = true) :
    i + respCloseTag.length ≤ text.length := by
  have heq := occursAt_iff.mp h
  have hlen := congrArg List.length heq
  simp only [List.length_take, List.length_drop] at hlen
  have h11 := respCloseTag_length
  omega

theorem occursAt_big {text : List Char} {i : Nat} (h : text.length < i) :
    occursAt text i = false := by
  cases hc : occursAt text i with
  | false => rfl
  | true =>
    have := occursAt_le hc
    have := respCloseTag_length
    omega

theorem occursAt_take {text : List Char} {i n : Nat}
    (h : occursAt text i = true) (hn : i + respCloseTag.length ≤ n) :
    occursAt (List.take n text) i = true := by
  rw [occursAt_iff] at h ⊢
  rw [List.drop_take, List.take_take, min_eq_left (by omega)]
  exact h

theorem occursAt_of_take {text : List Char} {i n : Nat}
    (h : occursAt (List.take n text) i = true) : occursAt text i = true := by
  rw [occursAt_iff] at h ⊢
  rw [List.drop_take, List.take_take] at h
  have hlen := congrArg List.length h
  simp only [List.length_take, List.length_drop, respCloseTag_length]
    at hlen
  have hmin : min respCloseTag.length (n - i) = respCloseTag.length := by
    rw [respCloseTag_length]
    omega
  rw [hmin] at h
  exact h

theorem rfindFrom_eq_some {text : List Char} :
    ∀ {n i : Nat}, rfindFrom text n = some i →
      occursAt text i = true ∧ i ≤ n ∧
        ∀ j, i < j → j ≤ n → occursAt text j = false := by
  intro n
  induction n with
  | zero =>
    intro i h
    unfold rfindFrom at h
    by_cases h0 : occursAt text 0 = true
    · rw [if_pos h0] at h
      cases h
      exact ⟨h0, le_refl 0, fun j hj1 hj2 => absurd (lt_of_lt_of_le hj1 hj2)
        (lt_irrefl 0)⟩
    · rw [if_neg h0] at h
      cases h
  | succ m ih =>
    intro i h
    unfold rfindFrom at h
    by_cases h0 : occursAt text (m + 1) = true
    · rw [if_pos h0] at h
      cases h
      exact ⟨h0, le_refl _, fun j hj1 hj2 => absurd (lt_of_lt_of_le hj1 hj2)
        (lt_irrefl _)⟩
    · rw [if_neg h0] at h
      obtain ⟨ho, hle, hmax⟩ := ih h
      refine ⟨ho, le_trans hle (Nat.le_succ m), fun j hj1 hj2 => ?_⟩
      by_cases hjm : j = m + 1
      · subst hjm
        exact eq_false_of_ne_true h0
      · exact hmax j hj1 (by omega)

theorem rfindFrom_eq_none {text : List Char} :
    ∀ {n : Nat}, rfindFrom text n = Option.none →
      ∀ j ≤ n, occursAt text j = false := by
  intro n
  induction n with
  | zero =>
    intro h j hj
    unfold rfindFrom at h
    by_cases h0 : occursAt text 0 = true
    · rw [if_pos h0] at h; cases h
    · rw [Nat.le_zero.mp hj]
      exact eq_false_of_ne_true h0
  | succ m ih =>
    intro h j hj
    unfold rfindFrom at h
    by_cases h0 : occursAt text (m + 1) = true
    · rw [if_pos h0] at h; cases h
    · rw [if_neg h0] at h
      by_cases hjm : j = m + 1
      · subst hjm
        exact eq_false_of_ne_true h0
      · exact ih h j (by omega)

theorem rfindFrom_some_of {text : List Char} :
    ∀ {n i : Nat}, occursAt text i = true → i ≤ n →
      (∀ j, i < j → j ≤ n → occursAt text j = false) →
      rfindFrom text n = some i := by
  intro n
  induction n with
  | zero =>
    intro i ho hle _
    rw [Nat.le_zero.mp hle] at ho ⊢
    unfold rfindFrom
    rw [if_pos ho]
  | succ m ih =>
    intro i ho hle hmax
    by_cases him : i = m + 1
    · subst him
      unfold rfindFrom
      rw [if_pos ho]
    · have hlem : i ≤ m := by omega
      have hnot : occursAt text (m + 1) = false :=
        hmax (m + 1) (by omega) (le_refl _)
      unfold rfindFrom
      rw [if_neg (by rw [hnot]; exact Bool.false_ne_true)]
      exact ih ho hlem (fun j hj1 hj2 => hmax j hj1 (by omega))

theorem rfindTag_none_iff (t : List Char) :
    rfindTag t = Option.none ↔ ∀ i, occursAt t i = false := by
  constructor
  · intro h i
    by_cases hi : i ≤ t.length
    · exact rfindFrom_eq_none h i hi
    · exact occursAt_big (by omega)
  · intro h
    cases hr : rfindTag t with
    | none => rfl
    | some i =>
      obtain ⟨ho, _, _⟩ := rfindFrom_eq_some hr
      rw [h i] at ho
      cases ho

theorem clean_of_rfind_none {t : List Char} (h : rfindTag t = Option.none) :
    clean_xml_response t = t := by
  unfold clean_xml_response
  rw [h]

theorem clean_of_rfind_some {t : List Char} {i : Nat}
    (h : rfindTag t = some i) :
    clean_xml_response t = List.take (i + respCloseTag.length) t := by
  unfold clean_xml_response
  rw [h]

theorem rfindTag_of_clean {t : List Char} {i : Nat}
    (h : rfindTag t = some i) :
    rfindTag (List.take (i + respCloseTag.length) t) = some i := by
  obtain ⟨ho, hle, hmax⟩ := rfindFrom_eq_some h
  have hiL : i + respCloseTag.length ≤ t.length := occursAt_le ho
  have hlen : (List.take (i + respCloseTag.length) t).length =
      i + respCloseTag.length := by
    simp [List.length_take]
    omega
  have ho1 : occursAt (List.take (i + respCloseTag.length) t) i = true :=
    occursAt_take ho (le_refl _)
  unfold rfindTag
  rw [hlen]
  refine rfindFrom_some_of ho1 (by omega) (fun j hj1 _ => ?_)
  cases hc : occursAt (List.take (i + respCloseTag.length) t) j with
  | false => rfl
  | true =>
    have := occursAt_le hc
    rw [hlen] at this
    omega

theorem clean_idempotent (t : List Char) :
    clean_xml_response (clean_xml_response t) = clean_xml_response t := by
  cases h : rfindTag t with
  | none =>
    rw [clean_of_rfind_none h, clean_of_rfind_none h]
  | some i =>
    rw [clean_of_rfind_some h,
      clean_of_rfind_some (rfindTag_of_clean h), List.take_take,
      min_self]

theorem clean_of_endswith (t pre : List Char)
    (h : t = pre ++ respCloseTag) : clean_xml_response t = t := by
  have ho : occursAt t pre.length = true := by
    rw [occursAt_iff, h, List.drop_left, List.take_length]
  have htl : t.length = pre.length + respCloseTag.length := by
    rw [h, List.length_append]
  cases hr : rfindTag t with
  | none =>
    have := rfindFrom_eq_none hr pre.length (by omega)
    rw [this] at ho
    cases ho
  | some i =>
    obtain ⟨ho1, hle, hmax⟩ := rfindFrom_eq_some hr
    have hi1 : i + respCloseTag.length ≤ t.length := occursAt_le ho1
    have hge : pre.length ≤ i := by
      by_contra hlt
      have := hmax pre.length (by omega) (by omega)
      rw [this] at ho
      cases ho
    have : i = pre.length := by omega
    subst this
    rw [clean_of_rfind_some hr, ← htl, List.take_length]

theorem exceptBind_ok_inv {α β : Type} {x : Except PyErr α}
    {g : α → Except PyErr β} {b : β} (h : (x >>= g) = .ok b) :
    ∃ a, x = .ok a ∧ g a = .ok b := by
  cases x with
  | error e => rw [exceptBind_error] at h; cases h
  | ok a => exact ⟨a, rfl, h⟩

theorem dict_any_eq_true {kvs : List (String × PyVal)} {k : String}
    {u : PyVal} (h : dictLookup kvs k = some u) :
    kvs.any (fun p => p.1 = k) = true := by
  induction kvs with
  | nil => cases h
  | cons p rest ih =>
    obtain ⟨k1, v1⟩ := p
    by_cases h1 : k1 = k
    · simp [h1]
    · simp only [dictLookup, if_neg h1] at h
      simp [h1, ih h]

theorem dict_any_eq_false {kvs : List (String × PyVal)} {k : String}
    (h : dictLookup kvs k = Option.none) :
    kvs.any (fun p => p.1 = k) = false := by
  induction kvs with
  | nil => rfl
  | cons p rest ih =>
    obtain ⟨k1, v1⟩ := p
    by_cases h1 : k1 = k
    · simp [dictLookup, h1] at h
    · simp only [dictLookup, if_neg h1] at h
      simp [h1, ih h]

theorem pyContains_dict (kvs : List (String × PyVal)) (k : String) :
    pyContains (.dict kvs) k = .ok (kvs.any (fun p => p.1 = k)) := rfl

theorem pySub_dict {kvs : List (String × PyVal)} {k : String} {u : PyVal}
    (h : dictLookup kvs k = some u) : pySub (.dict kvs) k = .ok u := by
  simp [pySub, h]

theorem pySub_ok_inv {v : PyVal} {k : String} {u : PyVal}
    (h : pySub v k = .ok u) :
    ∃ kvs, v = .dict kvs ∧ dictLookup kvs k = some u := by
  cases v with
  | dict kvs =>
    refine ⟨kvs, rfl, ?_⟩
    cases hl : dictLookup kvs k with
    | none => simp [pySub, hl] at h
    | some u1 => simp [pySub, hl] at h; rw [h]
  | none => simp [pySub] at h
  | str s => simp [pySub] at h
  | int n => simp [pySub] at h
  | list xs => simp [pySub] at h

theorem coerceRows_ok_inv :
    ∀ {entries entries1 : List (String × PyVal)} {camps : List PyVal},
    coerceRows entries = .ok (entries1, camps) →
    (entries1.filter
      (fun p => strStartsWith p.1 "row" && p.2.isDict)).map Prod.snd =
        camps ∧
    ∀ c ∈ camps, ∃ row0 row1, c = .dict row1 ∧
      parse_campaign_value row0 = .ok row1 := by
  intro entries
  induction entries with
  | nil =>
    intro entries1 camps h
    unfold coerceRows at h
    cases h
    exact ⟨rfl, fun c hc => absurd hc (List.not_mem_nil c)⟩
  | cons q rest ih =>
    intro entries1 camps h
    obtain ⟨k, v⟩ := q
    unfold coerceRows at h
    cases hv : v with
    | dict row =>
      cases hsw : strStartsWith k "row" with
      | true =>
        rw [hv, hsw] at h
        simp only at h
        obtain ⟨row1, hrow1, h⟩ := exceptBind_ok_inv h
        obtain ⟨p, hp, h⟩ := exceptBind_ok_inv h
        obtain ⟨e1, c1⟩ := p
        obtain ⟨he, hc⟩ := Prod.mk.injEq .. ▸ Except.ok.inj h
        obtain ⟨hfil, hmem⟩ := ih hp
        subst he hc
        constructor
        · simp only [PyVal.isDict] at hfil
          simp [List.filter_cons, hsw, PyVal.isDict, hfil]
        · intro c hcm
          rcases List.mem_cons.mp hcm with hh | hh
          · exact ⟨row, row1, hh, hrow1⟩
          · exact hmem c hh
      | false =>
        rw [hv, hsw] at h
        simp only at h
        obtain ⟨p, hp, h⟩ := exceptBind_ok_inv h
        obtain ⟨e1, c1⟩ := p
        obtain ⟨he, hc⟩ := Prod.mk.injEq .. ▸ Except.ok.inj h
        obtain ⟨hfil, hmem⟩ := ih hp
        subst he hc
        refine ⟨?_, hmem⟩
        simp only [PyVal.isDict] at hfil
        simp [List.filter_cons, hsw, PyVal.isDict, hfil]
    | none =>
      rw [hv] at h
      simp only at h
      obtain ⟨p, hp, h⟩ := exceptBind_ok_inv h
      obtain ⟨e1, c1⟩ := p
      obtain ⟨he, hc⟩ := Prod.mk.injEq .. ▸ Except.ok.inj h
      obtain ⟨hfil, hmem⟩ := ih hp
      subst he hc
      refine ⟨?_, hmem⟩
      simp only [PyVal.isDict] at hfil
      simp [List.filter_cons, PyVal.isDict, hfil]
    | str s =>
      rw [hv] at h
      simp only at h
      obtain ⟨p, hp, h⟩ := exceptBind_ok_inv h
      obtain ⟨e1, c1⟩ := p
      obtain ⟨he, hc⟩ := Prod.mk.injEq .. ▸ Except.ok.inj h
      obtain ⟨hfil, hmem⟩ := ih hp
      subst he hc
      refine ⟨?_, hmem⟩
      simp only [PyVal.isDict] at hfil
      simp [List.filter_cons, PyVal.isDict, hfil]
    | int n =>
      rw [hv] at h
      simp only at h
      obtain ⟨p, hp, h⟩ := exceptBind_ok_inv h
      obtain ⟨e1, c1⟩ := p
      obtain ⟨he, hc⟩ := Prod.mk.injEq .. ▸ Except.ok.inj h
      obtain ⟨hfil, hmem⟩ := ih hp
      subst he hc
      refine ⟨?_, hmem⟩
      simp only [PyVal.isDict] at hfil
      simp [List.filter_cons, PyVal.isDict, hfil]
    | list xs =>
      rw [hv] at h
      simp only at h
      obtain ⟨p, hp, h⟩ := exceptBind_ok_inv h
      obtain ⟨e1, c1⟩ := p
      obtain ⟨he, hc⟩ := Prod.mk.injEq .. ▸ Except.ok.inj h
      obtain ⟨hfil, hmem⟩ := ih hp
      subst he hc
      refine ⟨?_, hmem⟩
      simp only [PyVal.isDict] at hfil
      simp [List.filter_cons, PyVal.isDict, hfil]

theorem getCampaignsBody_fst (w : World) :
    (getCampaignsBody w).1 = [Event.httpGet] := by
  unfold getCampaignsBody
  rcases hr : w.httpResult with e | resp
  · rfl
  · dsimp only
    rcases hd : resp.decodeAt (extractCharset (resp.contentType.getD ""))
      with e | text
    · rfl
    · dsimp only
      rcases hp : w.parseXml (cleanStr text) with e | root <;> rfl

theorem getCampaignsBody_req {w : World} (h : w.httpResult = .error ()) :
    getCampaignsBody w = ([Event.httpGet], .error .requestError) := by
  unfold getCampaignsBody
  rw [h]

theorem getCampaignsBody_dec {w : World} {resp : HttpResp}
    (h1 : w.httpResult = .ok resp)
    (h2 : resp.decodeAt (extractCharset (resp.contentType.getD "")) =
      .error ()) :
    getCampaignsBody w = ([Event.httpGet], .error .decodeError) := by
  unfold getCampaignsBody
  rw [h1]
  dsimp only
  rw [h2]

theorem getCampaignsBody_par {w : World} {resp : HttpResp} {text : String}
    (h1 : w.httpResult = .ok resp)
    (h2 : resp.decodeAt (extractCharset (resp.contentType.getD "")) =
      .ok text)
    (h3 : w.parseXml (cleanStr text) = .error ()) :
    getCampaignsBody w = ([Event.httpGet], .error .parseError) := by
  unfold getCampaignsBody
  rw [h1]
  dsimp only
  rw [h2]
  dsimp only
  rw [h3]

theorem get_init_of_body_err {w : World} {tok : String} {e : PyErr}
    (htok : w.authToken = some tok) (hne : tok ≠ "")
    (hcaught : e = .requestError ∨ e = .parseError ∨ e = .decodeError)
    (hb : getCampaignsBody w = ([Event.httpGet], .error e)) :
    get_campaigns_init w = ([Event.httpGet], .ok Option.none) := by
  unfold get_campaigns_init
  rw [htok]
  dsimp only
  rw [if_neg hne, hb]
  rcases hcaught with h | h | h <;> rw [h]

theorem get_main_of_body_err {w : World} {tok : String} {e : PyErr}
    (htok : w.authToken = some tok) (hne : tok ≠ "")
    (hcaught : e = .requestError ∨ e = .parseError)
    (hb : getCampaignsBody w = ([Event.httpGet], .error e)) :
    get_campaigns_main w = ([Event.httpGet], .ok Option.none) := by
  unfold get_campaigns_main
  rw [htok]
  dsimp only
  rw [if_neg hne, hb]
  rcases hcaught with h | h <;> rw [h]

theorem get_main_of_body_dec {w : World} {tok : String}
    (htok : w.authToken = some tok) (hne : tok ≠ "")
    (hb : getCampaignsBody w = ([Event.httpGet], .error .decodeError)) :
    get_campaigns_main w = ([Event.httpGet], .error .decodeError) := by
  unfold get_campaigns_main
  rw [htok]
  dsimp only
  rw [if_neg hne, hb]

theorem main_init_of_get_none {w : World} {evs : List Event}
    (h : get_campaigns_init w = (evs, .ok Option.none)) :
    main_init w = (evs, Option.none) := by
  unfold main_init
  rw [h]

theorem main_init_of_get_err {w : World} {evs : List Event} {e : PyErr}
    (h : get_campaigns_init w = (evs, .error e)) :
    main_init w = (evs, Option.none) := by
  unfold main_init
  rw [h]

theorem main_main_of_get_none {w : World} {evs : List Event}
    (h : get_campaigns_main w = (evs, .ok Option.none)) :
    main_main w = (evs, Option.none) := by
  unfold main_main
  rw [h]

theorem main_main_of_get_err {w : World} {evs : List Event} {e : PyErr}
    (h : get_campaigns_main w = (evs, .error e)) :
    main_main w = (evs, some e) := by
  unfold main_main
  rw [h]

theorem main_main_of_mut_err {w : World} {evs : List Event} {d : PyVal}
    {e : PyErr} (h : get_campaigns_main w = (evs, .ok (some d)))
    (ht : pyTruthy d = true) (hm : parse_campaigns_data_mut d = .error e) :
    main_main w = (evs, some e) := by
  unfold main_main
  rw [h]
  simp only [ht, if_true]
  rw [hm]

theorem parse_campaigns_data_no_result {kvs : List (String × PyVal)}
    (h : dictLookup kvs "result" = Option.none) :
    parse_campaigns_data (.dict kvs) = .ok [] := by
  unfold parse_campaigns_data
  rw [pyContains_dict, exceptBind_ok, dict_any_eq_false h]
  rfl

theorem parse_campaigns_data_no_data {kvs rkvs : List (String × PyVal)}
    (h1 : dictLookup kvs "result" = some (.dict rkvs))
    (h2 : dictLookup rkvs "data" = Option.none) :
    parse_campaigns_data (.dict kvs) = .ok [] := by
  unfold parse_campaigns_data
  rw [pyContains_dict, exceptBind_ok, dict_any_eq_true h1]
  simp only [if_true]
  rw [pySub_dict h1, exceptBind_ok, pyContains_dict, exceptBind_ok,
    dict_any_eq_false h2]
  rfl

theorem parse_campaigns_data_dict {kvs rkvs entries : List (String × PyVal)}
    (h1 : dictLookup kvs "result" = some (.dict rkvs))
    (h2 : dictLookup rkvs "data" = some (.dict entries)) :
    parse_campaigns_data (.dict kvs) =
      .ok ((entries.filter
        (fun p => strStartsWith p.1 "row" && p.2.isDict)).map Prod.snd) := by
  unfold parse_campaigns_data
  rw [pyContains_dict, exceptBind_ok, dict_any_eq_true h1]
  simp only [if_true]
  rw [pySub_dict h1, exceptBind_ok, pyContains_dict, exceptBind_ok,
    dict_any_eq_true h2]
  simp only [if_true]
  rw [pySub_dict h2, exceptBind_ok]

theorem mut_no_result {kvs : List (String × PyVal)}
    (h : dictLookup kvs "result" = Option.none) :
    parse_campaigns_data_mut (.dict kvs) = .ok (.dict kvs, []) := by
  unfold parse_campaigns_data_mut
  rw [pyContains_dict, exceptBind_ok, dict_any_eq_false h]
  rfl

theorem mut_err_of_coerceRows {xkvs rkvs entries : List (String × PyVal)}
    {e : PyErr} (h1 : dictLookup xkvs "result" = some (.dict rkvs))
    (h2 : dictLookup rkvs "data" = some (.dict entries))
    (hce : coerceRows entries = .error e) :
    parse_campaigns_data_mut (.dict xkvs) = .error e := by
  unfold parse_campaigns_data_mut
  rw [pyContains_dict, exceptBind_ok, dict_any_eq_true h1]
  simp only [if_true]
  rw [pySub_dict h1, exceptBind_ok, pyContains_dict, exceptBind_ok,
    dict_any_eq_true h2]
  simp only [if_true]
  rw [pySub_dict h2, exceptBind_ok]
  simp only
  rw [hce, exceptBind_error]

theorem coerceRows_err (entries : List (String × PyVal)) (k : String)
    (row : List (String × PyVal)) (hm : (k, PyVal.dict row) ∈ entries)
    (hsw : strStartsWith k "row" = true)
    (hrow : ∃ e0, parse_campaign_value row = .error e0) :
    ∃ e, coerceRows entries = .error e := by
  induction entries with
  | nil => cases hm
  | cons q rest ih =>
    obtain ⟨k1, v1⟩ := q
    rcases List.mem_cons.mp hm with hh | hh
    · obtain ⟨hk, hv⟩ := Prod.mk.injEq .. ▸ hh.symm
      subst hk
      subst hv
      obtain ⟨e0, he0⟩ := hrow
      refine ⟨e0, ?_⟩
      unfold coerceRows
      rw [hsw]
      simp only
      rw [he0, exceptBind_error]
    · obtain ⟨e, he⟩ := ih hh
      unfold coerceRows
      cases v1 with
      | dict row1 =>
        cases hsw1 : strStartsWith k1 "row" with
        | true =>
          cases hpv : parse_campaign_value row1 with
          | error e1 =>
            exact ⟨e1, by simp only; rw [hpv, exceptBind_error]⟩
          | ok row2 =>
            refine ⟨e, ?_⟩
            simp only
            rw [hpv, exceptBind_ok, he, exceptBind_error]
        | false =>
          refine ⟨e, ?_⟩
          simp only
          rw [he, exceptBind_error]
      | none =>
        exact ⟨e, by simp only; rw [he, exceptBind_error]⟩
      | str s =>
        exact ⟨e, by simp only; rw [he, exceptBind_error]⟩
      | int n =>
        exact ⟨e, by simp only; rw [he, exceptBind_error]⟩
      | list xs =>
        exact ⟨e, by simp only; rw [he, exceptBind_error]⟩

theorem bad_field_not_coercible {s : String} (hs : s ≠ "")
    (hnum : pyIntOfString s = Option.none) :
    ∀ n : Int, coerceVal (.str s) ≠ Except.ok n := by
  intro n h
  unfold coerceVal at h
  rw [if_pos (by simp [pyTruthy, hs])] at h
  rw [show pyToInt (.str s) = .error .valueError by
    simp [pyToInt, hnum]] at h
  cases h

theorem parse_campaign_value_err_of_bad {row : List (String × PyVal)}
    {f s : String} (hf : f ∈ campaignFields)
    (hv : dictLookup row f = some (.str s)) (hs : s ≠ "")
    (hnum : pyIntOfString s = Option.none) :
    ∃ e, parse_campaign_value row = .error e := by
  apply coerce_fold_err campaignFields row f hf
  intro u n hu hc
  rw [hv] at hu
  cases hu
  exact bad_field_not_coercible hs hnum n hc

theorem mut_pure_agreement {d d1 : PyVal} {camps : List PyVal}
    (h : parse_campaigns_data_mut d = .ok (d1, camps)) :
    parse_campaigns_data d1 = .ok camps ∧
    ∀ c ∈ camps, ∃ row0 row1, c = PyVal.dict row1 ∧
      parse_campaign_value row0 = .ok row1 := by
  unfold parse_campaigns_data_mut at h
  obtain ⟨c1, hc1, h⟩ := exceptBind_ok_inv h
  cases c1 with
  | false =>
    simp only [Bool.false_eq_true, if_false] at h
    obtain ⟨hd, hc⟩ := Prod.mk.injEq .. ▸ Except.ok.inj h
    subst hd
    subst hc
    refine ⟨?_, fun c hc => absurd hc (List.not_mem_nil c)⟩
    unfold parse_campaigns_data
    rw [hc1, exceptBind_ok]
    rfl
  | true =>
    simp only [if_true] at h
    obtain ⟨r, hr, h⟩ := exceptBind_ok_inv h
    obtain ⟨xkvs, hdx, hlx⟩ := pySub_ok_inv hr
    obtain ⟨c2, hc2, h⟩ := exceptBind_ok_inv h
    cases c2 with
    | false =>
      simp only [Bool.false_eq_true, if_false] at h
      obtain ⟨hd, hc⟩ := Prod.mk.injEq .. ▸ Except.ok.inj h
      subst hd
      subst hc
      refine ⟨?_, fun c hc => absurd hc (List.not_mem_nil c)⟩
      unfold parse_campaigns_data
      rw [hc1, exceptBind_ok]
      simp only [if_true]
      rw [hr, exceptBind_ok, hc2, exceptBind_ok]
      rfl
    | true =>
      simp only [if_true] at h
      obtain ⟨data, hdata, h⟩ := exceptBind_ok_inv h
      obtain ⟨rkvs, hrk, hlr⟩ := pySub_ok_inv hdata
      subst hrk
      cases data with
      | dict entries =>
        simp only at h
        obtain ⟨p, hp, h⟩ := exceptBind_ok_inv h
        obtain ⟨entries1, camps0⟩ := p
        obtain ⟨hd1, hcm⟩ := Prod.mk.injEq .. ▸ Except.ok.inj h
        obtain ⟨hfil, hmem⟩ := coerceRows_ok_inv hp
        subst hcm
        refine ⟨?_, hmem⟩
        subst hdx
        rw [← hd1]
        rw [show setDataPath (PyVal.dict xkvs) (PyVal.dict rkvs)
          (PyVal.dict entries1) = PyVal.dict (dictSet xkvs "result"
            (PyVal.dict (dictSet rkvs "data" (PyVal.dict entries1))))
          from rfl]
        rw [parse_campaigns_data_dict
          (dictLookup_dictSet_self xkvs "result" _)
          (dictLookup_dictSet_self rkvs "data" _), hfil]
      | none => simp only at h; cases h
      | str s => simp only at h; cases h
      | int n => simp only at h; cases h
      | list xs => simp only at h; cases h

theorem sumField_nil (f : String) : sumField [] f = .ok 0 := rfl

theorem sumField_cons_zero {kvs : List (String × PyVal)}
    {rest : List PyVal} {f : String}
    (h : dictLookup kvs f = Option.none ∨
      ∃ u, dictLookup kvs f = some u ∧ pyTruthy u = false) :
    sumField (PyVal.dict kvs :: rest) f = sumField rest f := by
  unfold sumField
  rw [List.foldlM_cons]
  have hstep : (do
      let v ← pyGet (PyVal.dict kvs) f (.int 0)
      let n ← coerceVal v
      Except.ok ((0 : Int) + n)) = Except.ok (0 : Int) := by
    rcases h with h | ⟨u, hu, hfu⟩
    · rw [show pyGet (PyVal.dict kvs) f (.int 0) =
        .ok ((dictLookup kvs f).getD (.int 0)) from rfl, h]
      simp [exceptBind_ok, coerceVal, pyTruthy]
    · rw [show pyGet (PyVal.dict kvs) f (.int 0) =
        .ok ((dictLookup kvs f).getD (.int 0)) from rfl, hu]
      simp only [Option.getD_some, exceptBind_ok]
      rw [show coerceVal u = if pyTruthy u then pyToInt u else .ok 0
        from rfl, hfu]
      simp [exceptBind_ok]
  rw [hstep, exceptBind_ok]

theorem reprOf_ge_two {vs : List PyVal} (h : 2 ≤ vs.length) :
    reprOf vs = some (.list vs) := by
  match vs with
  | [] => simp at h
  | [v] => simp at h
  | v0 :: v1 :: tl => rfl

theorem get_main_fst (w : World) :
    (get_campaigns_main w).1 = [] ∨
      (get_campaigns_main w).1 = [Event.httpGet] := by
  unfold get_campaigns_main
  rcases w.authToken with _ | tok
  · left; rfl
  · dsimp only
    by_cases htok : tok = ""
    · rw [if_pos htok]; left; rfl
    · rw [if_neg htok]
      right
      have hb : getCampaignsBody w =
          ([Event.httpGet], (getCampaignsBody w).2) := by
        conv_lhs => rw [show getCampaignsBody w =
          ((getCampaignsBody w).1, (getCampaignsBody w).2) from rfl]
        rw [getCampaignsBody_fst w]
      rw [hb]
      cases h2 : (getCampaignsBody w).2 with
      | ok v => rfl
      | error e => cases e <;> rfl

/-! ## Claims -/

/-- **C1** (amended).  The claim as frozen also promises the value `0` for
fields *absent* from the mapping, which fails: `parse_campaign_value`
subscripts the row directly and an absent field raises `KeyError`
(`c1_absent_field_counterexample`).  Amended to the behaviour of the code:
for every campaign mapping in which each of the 22 enumerated fields is
present with a value that is falsy or integer-parseable, coercion succeeds,
afterwards every enumerated field holds an integer — `0` whenever the
input value was empty/falsy — and all other keys are left untouched. -/
theorem c1_field_coercion (row : List (String × PyVal))
    (h : ∀ f ∈ campaignFields, ∃ u n, dictLookup row f = some u ∧
      coerceVal u = Except.ok n) :
    ∃ row1, parse_campaign_value row = .ok row1 ∧
      (∀ f ∈ campaignFields, ∃ u n, dictLookup row f = some u ∧
        coerceVal u = Except.ok n ∧ dictLookup row1 f = some (.int n) ∧
        (pyTruthy u = false → n = 0)) ∧
      (∀ k, k ∉ campaignFields → dictLookup row1 k = dictLookup row k) := by
  obtain ⟨v1, hfold, hvals, hpres⟩ :=
    coerce_fold_ok campaignFields campaignFields_nodup row h
  refine ⟨v1, hfold, ?_, hpres⟩
  intro f hf
  obtain ⟨u, n, hu, hc, hl⟩ := hvals f hf
  refine ⟨u, n, hu, hc, hl, fun hfalse => ?_⟩
  unfold coerceVal at hc
  rw [hfalse] at hc
  simp only [Bool.false_eq_true, if_false] at hc
  exact (Except.ok.inj hc).symm

/-- Witness for `c1_field_coercion` at a row holding `"5"` everywhere. -/
theorem c1_field_coercion_witness :
    ∃ row1, parse_campaign_value sampleRow = .ok row1 ∧
      (∀ f ∈ campaignFields, ∃ u n, dictLookup sampleRow f = some u ∧
        coerceVal u = Except.ok n ∧ dictLookup row1 f = some (.int n) ∧
        (pyTruthy u = false → n = 0)) ∧
      (∀ k, k ∉ campaignFields →
        dictLookup row1 k = dictLookup sampleRow k) :=
  c1_field_coercion sampleRow (by
    intro f hf
    fin_cases hf <;> exact ⟨.str "5", 5, rfl, rfl⟩)

/-- **C1** counterexample: on the empty campaign mapping (every listed
field absent) the claim promises a successful coercion leaving every
listed field `0`; the code raises `KeyError` and produces no output. -/
theorem c1_absent_field_counterexample :
    parse_campaign_value [] = Except.error PyErr.keyError ∧
      ¬ ∃ row1, parse_campaign_value [] = Except.ok row1 := by
  refine ⟨rfl, ?_⟩
  rintro ⟨row1, hr⟩
  exact Except.noConfusion hr

/-- **C2** (amended).  The claim as frozen also asserts that "any other
shape at that path is ignored rather than raising an error", which fails:
a non-mapping stored at `result.data` makes the `.items()` iteration raise
(`c2_nonmapping_counterexample`).  Amended to the dict-shaped paths the
code actually handles: when `result` is absent the extractor returns the
empty list; when `result` is a mapping without `data` it returns the
empty list; and when `result` and `data` are mappings it returns exactly
the values of the entries whose key starts with `row` and whose value is
a mapping, in insertion order (non-row or non-mapping siblings among the
entries are ignored). -/
theorem c2_extractor_contract (kvs : List (String × PyVal)) :
    (dictLookup kvs "result" = Option.none →
      parse_campaigns_data (.dict kvs) = .ok []) ∧
    (∀ rkvs, dictLookup kvs "result" = some (.dict rkvs) →
      dictLookup rkvs "data" = Option.none →
      parse_campaigns_data (.dict kvs) = .ok []) ∧
    (∀ rkvs entries, dictLookup kvs "result" = some (.dict rkvs) →
      dictLookup rkvs "data" = some (.dict entries) →
      parse_campaigns_data (.dict kvs) =
        .ok ((entries.filter
          (fun p => strStartsWith p.1 "row" && p.2.isDict)).map
            Prod.snd)) :=
  ⟨fun h => parse_campaigns_data_no_result h,
   fun _ h1 h2 => parse_campaigns_data_no_data h1 h2,
   fun _ _ h1 h2 => parse_campaigns_data_dict h1 h2⟩

/-- Witness for `c2_extractor_contract`: two rows and two stray siblings;
exactly the two row mappings come back, in order. -/
theorem c2_extractor_contract_witness :
    parse_campaigns_data (.dict sampleRoot) =
      .ok [.dict [("ID", .str "1")], .dict [("ID", .str "2")]] := by
  have h := (c2_extractor_contract sampleRoot).2.2
    [("data", PyVal.dict sampleEntries)] sampleEntries rfl rfl
  rw [h]
  rfl

/-- **C2** counterexample: with the string `"x"` stored at `result.data`
(the shape produced by `<result><data>x</data></result>`), the claim says
the shape is ignored without error; the code raises an `AttributeError`
from `data.items()`. -/
theorem c2_nonmapping_counterexample :
    parse_campaigns_data (.dict [("result", .dict [("data", .str "x")])]) =
      .error .attributeError := rfl

/-- **C3**: for an element with children, a tag shared by at least two
children maps to the list of all converted same-tag siblings in document
order (so the length equals the sibling count); a tag occurring exactly
once maps to the converted child itself, which is never a list (promotion
happens only from the second occurrence on); and with no repeated child
tags the result is a dict with exactly one entry per child. -/
theorem c3_repeated_tags (t : String) (txt : Option String) (cs : List Xml)
    (hne : cs ≠ []) :
    (∀ a, 2 ≤ (cs.filter (fun c => c.tag = a)).length →
      pyDictLookup (xml_to_dict (.elem t txt cs)) a =
        some (.list ((cs.filter (fun c => c.tag = a)).map xml_to_dict))) ∧
    (∀ a c0, cs.filter (fun c => c.tag = a) = [c0] →
      pyDictLookup (xml_to_dict (.elem t txt cs)) a =
        some (xml_to_dict c0) ∧ (xml_to_dict c0).isList = false) ∧
    ((cs.map Xml.tag).Nodup →
      xml_to_dict (.elem t txt cs) =
        .dict (cs.map (fun c => (c.tag, xml_to_dict c)))) := by
  obtain ⟨c, rest, rfl⟩ := List.exists_cons_of_ne_nil hne
  refine ⟨?_, ?_, ?_⟩
  · intro a hlen
    rw [xml_to_dict_cons]
    show dictLookup (buildDict (convPairs (c :: rest))) a = _
    rw [dictLookup_buildDict _ (convPairs_nonlist _) a,
      groupVals_convPairs]
    exact reprOf_ge_two (by simpa using hlen)
  · intro a c0 hfil
    refine ⟨?_, xml_to_dict_nonlist c0⟩
    rw [xml_to_dict_cons]
    show dictLookup (buildDict (convPairs (c :: rest))) a = _
    rw [dictLookup_buildDict _ (convPairs_nonlist _) a,
      groupVals_convPairs, hfil]
    rfl
  · intro hnd
    rw [xml_to_dict_cons, convPairs_eq_map, buildDict_eq_self]
    rw [List.map_map]
    exact hnd

/-- Witness for `c3_repeated_tags`: two `a` children and one `b` child. -/
theorem c3_repeated_tags_witness :
    pyDictLookup (xml_to_dict (.elem "r" Option.none sampleChildren)) "a" =
      some (.list [.str "1", .str "2"]) ∧
    pyDictLookup (xml_to_dict (.elem "r" Option.none sampleChildren)) "b" =
      some (.str "3") := by
  have h := c3_repeated_tags "r" Option.none sampleChildren
    (by simp [sampleChildren])
  constructor
  · have h1 := h.1 "a" (by decide)
    rw [h1]
    rfl
  · have h2 := (h.2.1 "b" (.elem "b" (some "3") []) rfl).1
    rw [h2]
    rfl

/-- **C9**: a childless element converts to its text content alone
(`None` when there is no text), discarding its own tag; consequently a
parent with a single empty leaf `a` and a parent without `a` are
indistinguishable through `get`-style access with a `None` default. -/
theorem c9_leaf_conversion :
    (∀ t1 t2 : String, ∀ txt : Option String,
      xml_to_dict (.elem t1 txt []) = pyOfText txt ∧
      xml_to_dict (.elem t1 txt []) = xml_to_dict (.elem t2 txt [])) ∧
    (∀ (t : String) (x : Option String) (cs1 cs2 : List Xml) (a : String),
      cs1.filter (fun c => c.tag = a) = [.elem a Option.none []] →
      cs2.filter (fun c => c.tag = a) = [] →
      cs1 ≠ [] → cs2 ≠ [] →
      pyGet (xml_to_dict (.elem t x cs1)) a .none = .ok .none ∧
      pyGet (xml_to_dict (.elem t x cs2)) a .none = .ok .none) := by
  constructor
  · intro t1 t2 txt
    exact ⟨by simp [xml_to_dict], by simp [xml_to_dict]⟩
  · intro t x cs1 cs2 a h1 h2 hne1 hne2
    obtain ⟨c, rest, rfl⟩ := List.exists_cons_of_ne_nil hne1
    obtain ⟨c2, rest2, rfl⟩ := List.exists_cons_of_ne_nil hne2
    constructor
    · rw [xml_to_dict_cons]
      show Except.ok ((dictLookup (buildDict (convPairs (c :: rest)))
        a).getD .none) = _
      rw [dictLookup_buildDict _ (convPairs_nonlist _) a,
        groupVals_convPairs, h1]
      rfl
    · rw [xml_to_dict_cons]
      show Except.ok ((dictLookup (buildDict (convPairs (c2 :: rest2)))
        a).getD .none) = _
      rw [dictLookup_buildDict _ (convPairs_nonlist _) a,
        groupVals_convPairs, h2]
      rfl

/-- Witness for `c9_leaf_conversion`: `<r><b>x</b><a/></r>` and
`<r><b>x</b></r>` both yield `None` for `a`. -/
theorem c9_leaf_conversion_witness :
    pyGet (xml_to_dict (.elem "r" Option.none childrenWithEmptyLeaf))
      "a" .none = .ok .none ∧
    pyGet (xml_to_dict (.elem "r" Option.none childrenWithoutLeaf))
      "a" .none = .ok .none :=
  c9_leaf_conversion.2 "r" Option.none childrenWithEmptyLeaf
    childrenWithoutLeaf "a" rfl rfl
    (by simp [childrenWithEmptyLeaf]) (by simp [childrenWithoutLeaf])

/-- **C4** (amended).  The claim as frozen says the CTR is omitted exactly
when the impression total is `0`; the code tests `total_impressions > 0`,
so a negative total (reachable, since the summed values are arbitrary
integer strings) is also omitted (`c4_negative_total_counterexample`).
Amended: whenever the status pass and both totals evaluate without error,
the reporter displays no CTR iff the impression total is `≤ 0`, and
otherwise displays exactly `100 * totalClicks / totalImpressions` (as an
exact rational; the code computes `(clicks / impressions) * 100`); and a
campaign whose field is missing or falsy contributes `0` to a total. -/
theorem c4_ctr (cs : List PyVal) (I C : Int)
    (hI : sumField cs "impressionsAll" = .ok I)
    (hC : sumField cs "clicksAll" = .ok C)
    (hs : statusPass cs = .ok ()) :
    print_campaign_stats cs =
      .ok (if 0 < I then some (100 * (C : ℚ) / (I : ℚ))
           else Option.none) ∧
    (∀ (kvs : List (String × PyVal)) (rest : List PyVal) (f : String),
      (dictLookup kvs f = Option.none ∨
        ∃ u, dictLookup kvs f = some u ∧ pyTruthy u = false) →
      sumField (PyVal.dict kvs :: rest) f = sumField rest f) := by
  refine ⟨?_, fun kvs rest f h => sumField_cons_zero h⟩
  by_cases hemp : cs.isEmpty = true
  · have hnil : cs = [] := List.isEmpty_iff.mp hemp
    subst hnil
    rw [sumField_nil] at hI
    have hI0 : (0 : Int) = I := Except.ok.inj hI
    rw [← hI0]
    rfl
  · unfold print_campaign_stats
    rw [if_neg hemp, hs, exceptBind_ok, hI, exceptBind_ok, hC,
      exceptBind_ok]
    by_cases h0 : 0 < I
    · rw [if_pos h0, if_pos h0]
      have : (C : ℚ) / (I : ℚ) * 100 = 100 * (C : ℚ) / (I : ℚ) := by
        ring
      rw [this]
    · rw [if_neg h0, if_neg h0]

/-- Witness for `c4_ctr`: 1000 impressions, 10 clicks, CTR displayed as
`100 * 10 / 1000` (= 1 %). -/
theorem c4_ctr_witness :
    print_campaign_stats sampleCampaigns =
      .ok (some (100 * ((10 : Int) : ℚ) / ((1000 : Int) : ℚ))) :=
  (c4_ctr sampleCampaigns 1000 10 rfl rfl rfl).1

/-- **C4** counterexample: the impression total of `negCampaigns` is `-1`,
which is not `0`, yet the reporter omits the CTR instead of reporting
`100 * 0 / (-1)`. -/
theorem c4_negative_total_counterexample :
    sumField negCampaigns "impressionsAll" = .ok (-1) ∧
    (-1 : Int) ≠ 0 ∧
    print_campaign_stats negCampaigns = .ok Option.none :=
  ⟨rfl, by decide, rfl⟩

/-- **C5**: with `AUTH_TOKEN` unset or empty, both `get_campaigns`
variants raise `ValueError` having performed no event at all (no HTTP
request); the `__init__` entry point catches it and ends normally and the
`__main__` entry point crashes with it — in both cases the event list is
empty, so no output file is written. -/
theorem c5_missing_token (w : World)
    (h : w.authToken = Option.none ∨ w.authToken = some "") :
    get_campaigns_init w = ([], .error .valueError) ∧
    get_campaigns_main w = ([], .error .valueError) ∧
    main_init w = ([], Option.none) ∧
    main_main w = ([], some .valueError) := by
  have h1 : get_campaigns_init w = ([], .error .valueError) := by
    unfold get_campaigns_init
    rcases h with h | h
    · rw [h]
    · rw [h]; rfl
  have h2 : get_campaigns_main w = ([], .error .valueError) := by
    unfold get_campaigns_main
    rcases h with h | h
    · rw [h]
    · rw [h]; rfl
  exact ⟨h1, h2, main_init_of_get_err h1, main_main_of_get_err h2⟩

/-- Witness for `c5_missing_token` at a world with no token. -/
theorem c5_missing_token_witness :
    get_campaigns_init worldNoToken = ([], .error .valueError) ∧
    get_campaigns_main worldNoToken = ([], .error .valueError) ∧
    main_init worldNoToken = ([], Option.none) ∧
    main_main worldNoToken = ([], some .valueError) :=
  c5_missing_token worldNoToken (Or.inl rfl)

/-- **C6**: a non-numeric non-empty string in a coerced field makes
`parse_campaign_value` raise; a row containing such a field anywhere under
`result.data` makes the coercing extraction raise (no per-field recovery);
and in the `__main__` entry point an extraction error is uncaught: the
run ends with that exception having performed at most the HTTP request —
in particular no file write. -/
theorem c6_coercion_fatal :
    (∀ (row : List (String × PyVal)) (f s : String), f ∈ campaignFields →
      dictLookup row f = some (.str s) → s ≠ "" →
      pyIntOfString s = Option.none →
      ∃ e, parse_campaign_value row = .error e) ∧
    (∀ (xkvs rkvs entries row : List (String × PyVal)) (k f s : String),
      dictLookup xkvs "result" = some (.dict rkvs) →
      dictLookup rkvs "data" = some (.dict entries) →
      (k, PyVal.dict row) ∈ entries → strStartsWith k "row" = true →
      f ∈ campaignFields → dictLookup row f = some (.str s) → s ≠ "" →
      pyIntOfString s = Option.none →
      ∃ e, parse_campaigns_data_mut (.dict xkvs) = .error e) ∧
    (∀ (w : World) (d : PyVal) (e : PyErr),
      (get_campaigns_main w).2 = .ok (some d) → pyTruthy d = true →
      parse_campaigns_data_mut d = .error e →
      (main_main w).2 = some e ∧
        ((main_main w).1 = [] ∨ (main_main w).1 = [Event.httpGet])) := by
  refine ⟨?_, ?_, ?_⟩
  · intro row f s hf hv hs hnum
    exact parse_campaign_value_err_of_bad hf hv hs hnum
  · intro xkvs rkvs entries row k f s h1 h2 hm hsw hf hv hsn hnum
    obtain ⟨e0, he0⟩ := parse_campaign_value_err_of_bad hf hv hsn hnum
    obtain ⟨e, he⟩ := coerceRows_err entries k row hm hsw ⟨e0, he0⟩
    exact ⟨e, mut_err_of_coerceRows h1 h2 he⟩
  · intro w d e hget ht hmut
    have hgw : get_campaigns_main w =
        ((get_campaigns_main w).1, Except.ok (some d)) := by
      conv_lhs => rw [show get_campaigns_main w =
        ((get_campaigns_main w).1, (get_campaigns_main w).2) from rfl]
      rw [hget]
    have hm2 := main_main_of_mut_err hgw ht hmut
    rw [hm2]
    exact ⟨rfl, get_main_fst w⟩

/-- Witness for `c6_coercion_fatal` at `badRow` inside `worldBad`. -/
theorem c6_coercion_fatal_witness :
    (∃ e, parse_campaign_value badRow = .error e) ∧
    (∃ e, parse_campaigns_data_mut (.dict badRoot) = .error e) ∧
    ((main_main worldBad).2 = some .valueError ∧
      ((main_main worldBad).1 = [] ∨
        (main_main worldBad).1 = [Event.httpGet])) :=
  ⟨c6_coercion_fatal.1 badRow "maxImpressions" "abc" (by decide) rfl
      (by decide) rfl,
   c6_coercion_fatal.2.1 badRoot [("data", PyVal.dict badEntries)]
      badEntries badRow "row0" "maxImpressions" "abc" rfl rfl
      (List.mem_singleton.mpr rfl) rfl (by decide) rfl (by decide) rfl,
   c6_coercion_fatal.2.2 worldBad (.dict badRoot) .valueError rfl rfl rfl⟩

/-- **C7**: with a credential present, each of the three pipeline failure
kinds — transport error, decode error, XML syntax error — is terminal:
the fetch yields no data (`__init__` returns `None` in all three cases;
`__main__` returns `None` for transport/XML errors and crashes with the
uncaught decode error), and each entry point performs exactly one HTTP
request and no file write. -/
theorem c7_failures_terminal (w : World) (tok : String)
    (htok : w.authToken = some tok) (hne : tok ≠ "")
    (hfail : w.httpResult = .error () ∨
      (∃ resp, w.httpResult = .ok resp ∧
        resp.decodeAt (extractCharset (resp.contentType.getD "")) =
          .error ()) ∨
      (∃ resp text, w.httpResult = .ok resp ∧
        resp.decodeAt (extractCharset (resp.contentType.getD "")) =
          .ok text ∧ w.parseXml (cleanStr text) = .error ())) :
    (get_campaigns_init w).2 = .ok Option.none ∧
    ((get_campaigns_main w).2 = .ok Option.none ∨
      (get_campaigns_main w).2 = .error .decodeError) ∧
    main_init w = ([Event.httpGet], Option.none) ∧
    (main_main w = ([Event.httpGet], Option.none) ∨
      main_main w = ([Event.httpGet], some .decodeError)) := by
  rcases hfail with h | ⟨resp, h1, h2⟩ | ⟨resp, text, h1, h2, h3⟩
  · have hb := getCampaignsBody_req h
    have hi := get_init_of_body_err htok hne (Or.inl rfl) hb
    have hm := get_main_of_body_err htok hne (Or.inl rfl) hb
    exact ⟨by rw [hi], Or.inl (by rw [hm]),
      main_init_of_get_none hi, Or.inl (main_main_of_get_none hm)⟩
  · have hb := getCampaignsBody_dec h1 h2
    have hi := get_init_of_body_err htok hne (Or.inr (Or.inr rfl)) hb
    have hm := get_main_of_body_dec htok hne hb
    exact ⟨by rw [hi], Or.inr (by rw [hm]),
      main_init_of_get_none hi, Or.inr (main_main_of_get_err hm)⟩
  · have hb := getCampaignsBody_par h1 h2 h3
    have hi := get_init_of_body_err htok hne (Or.inr (Or.inl rfl)) hb
    have hm := get_main_of_body_err htok hne (Or.inr rfl) hb
    exact ⟨by rw [hi], Or.inl (by rw [hm]),
      main_init_of_get_none hi, Or.inl (main_main_of_get_none hm)⟩

/-- Witness for `c7_failures_terminal` at a world whose request fails. -/
theorem c7_failures_terminal_witness :
    (get_campaigns_init worldReqErr).2 = .ok Option.none ∧
    ((get_campaigns_main worldReqErr).2 = .ok Option.none ∨
      (get_campaigns_main worldReqErr).2 = .error .decodeError) ∧
    main_init worldReqErr = ([Event.httpGet], Option.none) ∧
    (main_main worldReqErr = ([Event.httpGet], Option.none) ∨
      main_main worldReqErr = ([Event.httpGet], some .decodeError)) :=
  c7_failures_terminal worldReqErr "tok" rfl (by decide) (Or.inl rfl)

/-- **C8**: truncation is idempotent; a text in which the tag is never
found (`rfind` returns no position, which holds iff no position carries an
occurrence) passes through unchanged; and a text ending exactly at
`</response>` is returned unchanged. -/
theorem c8_truncation_idempotent :
    (∀ t : List Char,
      clean_xml_response (clean_xml_response t) = clean_xml_response t) ∧
    (∀ t : List Char, rfindTag t = Option.none →
      clean_xml_response t = t) ∧
    (∀ t : List Char, rfindTag t = Option.none ↔
      ∀ i, occursAt t i = false) ∧
    (∀ t pre : List Char, t = pre ++ respCloseTag →
      clean_xml_response t = t) :=
  ⟨clean_idempotent, fun _ h => clean_of_rfind_none h,
   rfindTag_none_iff, clean_of_endswith⟩

/-- Witness for `c8_truncation_idempotent` at concrete texts. -/
theorem c8_truncation_idempotent_witness :
    clean_xml_response (clean_xml_response "a</response>b".data) =
      clean_xml_response "a</response>b".data ∧
    clean_xml_response "abc".data = "abc".data ∧
    clean_xml_response "xy</response>".data = "xy</response>".data :=
  ⟨c8_truncation_idempotent.1 "a</response>b".data,
   c8_truncation_idempotent.2.1 "abc".data (by decide),
   c8_truncation_idempotent.2.2.2 "xy</response>".data "xy".data
     (by decide)⟩

/-- **C10**: the coercing extraction of `__main__.py`, with its in-place
mutation rendered as state passing, returns exactly the row mappings that
the updated structure stores under `result.data`: running the pure
extractor on the post-state returns the very same campaign list, and every
campaign (hence every stored row) holds an integer in every coerced
field. -/
theorem c10_extraction_mutates (d d1 : PyVal) (camps : List PyVal)
    (h : parse_campaigns_data_mut d = .ok (d1, camps)) :
    parse_campaigns_data d1 = .ok camps ∧
    ∀ c ∈ camps, ∃ row1, c = PyVal.dict row1 ∧
      ∀ f ∈ campaignFields, ∃ n : Int,
        dictLookup row1 f = some (.int n) := by
  obtain ⟨hpure, hmem⟩ := mut_pure_agreement h
  refine ⟨hpure, fun c hc => ?_⟩
  obtain ⟨row0, row1, hcr, hpv⟩ := hmem c hc
  exact ⟨row1, hcr,
    coerce_fold_ints campaignFields campaignFields_nodup row0 row1 hpv⟩

/-- Witness for `c10_extraction_mutates`: coercing `sampleRootFull`
yields `mutatedRoot` and `mutatedCamps`, and re-extraction agrees. -/
theorem c10_extraction_mutates_witness :
    parse_campaigns_data mutatedRoot = .ok mutatedCamps ∧
    ∀ c ∈ mutatedCamps, ∃ row1, c = PyVal.dict row1 ∧
      ∀ f ∈ campaignFields, ∃ n : Int,
        dictLookup row1 f = some (.int n) :=
  c10_extraction_mutates sampleRootFull mutatedRoot mutatedCamps rfl

end AdFox
